import Mathlib

set_option maxHeartbeats 1000000
set_option maxRecDepth 4000

/-!
Verification of the meal-ledger engine of the sochamcom repository.

The engine tracks per-student, per-day meal marks (S = breakfast,
T1 = lunch, T2 = dinner) for one calendar month, offers bulk edit
operations, a month-to-month roster rollover, totals, and a two-page
spreadsheet export.  Every definition below is a shallow embedding of the
corresponding function of the main application component; JavaScript
objects keyed by day number are embedded as association lists from the
day number to the per-day record, with lookup returning the first
matching entry.
-/

/-- Meal type: S (morning), T1 (noon), T2 (evening). -/
inductive MealType where
  | S
  | T1
  | T2
deriving DecidableEq

/-- One day cell of a student: the three meal flags.  Embeds the object
literal of shape S/T1/T2 booleans. -/
structure DayEntry where
  S : Bool
  T1 : Bool
  T2 : Bool
deriving DecidableEq

/-- MealData: the sparse per-day mapping of the source (an object keyed
by day number), embedded as an association list from the day number to
the day entry. -/
abbrev MealData : Type := List (Nat × DayEntry)

/-- A student: stable id, display name, sparse meal map. -/
structure Student where
  id : String
  name : String
  meals : MealData
deriving DecidableEq

/-- Monthly meal quotas (the standardMeals state). -/
structure StandardMeals where
  S : Int
  T1 : Int
  T2 : Int
deriving DecidableEq

/-- Lookup of the day entry stored for a day, or none when absent:
embeds reading a property of the meals object. -/
def lookupDay (m : MealData) (d : Nat) : Option DayEntry :=
  (List.find? (fun p => p.1 == d) m).map (fun p => p.2)

/-- Reading a day with the all-false default: embeds the recurrent idiom
of the source reading the day or the all-false object literal. -/
def mget (m : MealData) (d : Nat) : DayEntry :=
  (lookupDay m d).getD ⟨false, false, false⟩

/-- Writing a day entry: embeds the object spread that overrides the day
key.  The first stored occurrence is replaced; a new key is appended. -/
def setDay : MealData → Nat → DayEntry → MealData
  | [], d, e => [(d, e)]
  | p :: rest, d, e => if p.1 = d then (d, e) :: rest else p :: setDay rest d e

/-- Removing a day key entirely: embeds the delete operator on the meals
object. -/
def eraseDay : MealData → Nat → MealData
  | [], _ => []
  | p :: rest, d => if p.1 = d then eraseDay rest d else p :: eraseDay rest d

/-- Reads one meal flag of a day entry. -/
def getMeal (e : DayEntry) : MealType → Bool
  | MealType.S => e.S
  | MealType.T1 => e.T1
  | MealType.T2 => e.T2

/-- Overrides one meal flag of a day entry, embedding the object spread
with one computed key. -/
def setMeal (e : DayEntry) : MealType → Bool → DayEntry
  | MealType.S, b => { e with S := b }
  | MealType.T1, b => { e with T1 := b }
  | MealType.T2, b => { e with T2 := b }

/-- The DAYS_OF_WEEK label table of the source. -/
def DAYS_OF_WEEK : List String := ["CN", "2", "3", "4", "5", "6", "7"]

/-- Day-of-week index as returned by the JavaScript Date getDay call
(0 = Sunday .. 6 = Saturday) for the proleptic Gregorian calendar,
computed with the Zeller congruence; month is 0-indexed as in the
source. -/
def dateGetDay (day month year : Nat) : Nat :=
  let m1 := month + 1
  let y := if m1 ≤ 2 then year - 1 else year
  let m := if m1 ≤ 2 then m1 + 12 else m1
  let K := y % 100
  let J := y / 100
  let h := (day + 13 * (m + 1) / 5 + K + K / 4 + J / 4 + 5 * J) % 7
  (h + 6) % 7

/-- getDayOfWeek of the source: the weekday label of a date. -/
def getDayOfWeek (day month year : Nat) : String :=
  DAYS_OF_WEEK.getD (dateGetDay day month year) ""

/-- Gregorian leap-year rule, used to embed the day count that the
source obtains from the JavaScript Date rollover idiom. -/
def isLeapYear (year : Nat) : Bool :=
  (year % 4 == 0 && year % 100 != 0) || year % 400 == 0

/-- getDaysInMonth of the source (month 0-indexed). -/
def getDaysInMonth (month year : Nat) : Nat :=
  if month = 1 then (if isLeapYear year then 29 else 28)
  else if month = 3 ∨ month = 5 ∨ month = 8 ∨ month = 10 then 30
  else 31

/-- Per-student part of toggleMeal: flips one meal flag of one day,
seeding an absent day from the all-false default. -/
def toggleStudent (studentId : String) (day : Nat) (meal : MealType) (s : Student) : Student :=
  if s.id ≠ studentId then s
  else
    let currentMeals := mget s.meals day
    { s with meals := setDay s.meals day (setMeal currentMeals meal (!(getMeal currentMeals meal))) }

/-- toggleMeal of the source: maps the per-student toggle over the
roster. -/
def toggleMeal (students : List Student) (studentId : String) (day : Nat) (meal : MealType) : List Student :=
  students.map (toggleStudent studentId day meal)

/-- pasteMeals of the source: replaces the meal map of the addressed
student with the row clipboard. -/
def pasteMeals (clipboard : MealData) (students : List Student) (studentId : String) : List Student :=
  students.map (fun s => if s.id = studentId then { s with meals := clipboard } else s)

/-- pasteToAll of the source: replaces every meal map with the row
clipboard. -/
def pasteToAll (clipboard : MealData) (students : List Student) : List Student :=
  students.map (fun s => { s with meals := clipboard })

/-- copyColumn of the source: the boolean of one (day, meal) cell for
every student in roster order. -/
def copyColumn (students : List Student) (day : Nat) (meal : MealType) : List Bool :=
  students.map (fun s => getMeal (mget s.meals day) meal)

/-- Indexed worker of pasteColumn: the source maps with the array index
and reads the clipboard positionally, defaulting to false past its
end. -/
def pasteColumnAux (clip : List Bool) (day : Nat) (meal : MealType) : Nat → List Student → List Student
  | _, [] => []
  | idx, s :: rest =>
    (let currentMeals := mget s.meals day
     { s with meals := setDay s.meals day (setMeal currentMeals meal (clip.getD idx false)) })
      :: pasteColumnAux clip day meal (idx + 1) rest

/-- pasteColumn of the source. -/
def pasteColumn (clip : List Bool) (students : List Student) (day : Nat) (meal : MealType) : List Student :=
  pasteColumnAux clip day meal 0 students

/-- fillColumn of the source: sets one (day, meal) flag to true for
every student. -/
def fillColumn (students : List Student) (day : Nat) (meal : MealType) : List Student :=
  students.map (fun s => { s with meals := setDay s.meals day (setMeal (mget s.meals day) meal true) })

/-- clearColumn of the source: sets one (day, meal) flag to false for
every student. -/
def clearColumn (students : List Student) (day : Nat) (meal : MealType) : List Student :=
  students.map (fun s => { s with meals := setDay s.meals day (setMeal (mget s.meals day) meal false) })

/-- clearDay of the source: removes the day key for every student. -/
def clearDay (students : List Student) (day : Nat) : List Student :=
  students.map (fun s => { s with meals := eraseDay s.meals day })

/-- clearMonth of the source: resets every meal map to empty. -/
def clearMonth (students : List Student) : List Student :=
  students.map (fun s => { s with meals := [] })

/-- updateStudentName of the source. -/
def updateStudentName (students : List Student) (id : String) (newName : String) : List Student :=
  students.map (fun s => if s.id = id then { s with name := newName } else s)

/-- One day step of autoFillMeals: weekends are skipped completely,
Friday sets S and T1 only, other weekdays set all three flags. -/
def autoFillStep (month year : Nat) (newMeals : MealData) (day : Nat) : MealData :=
  let dow := getDayOfWeek day month year
  if dow = "7" ∨ dow = "CN" then newMeals
  else
    let currentMeals := mget newMeals day
    if dow = "6" then
      setDay newMeals day { currentMeals with S := true, T1 := true, T2 := false }
    else
      setDay newMeals day { currentMeals with S := true, T1 := true, T2 := true }

/-- Per-student loop of autoFillMeals over days 1 .. daysInMonth. -/
def autoFillStudentMeals (meals : MealData) (daysInMonth month year : Nat) : MealData :=
  (List.range' 1 daysInMonth).foldl (autoFillStep month year) meals

/-- autoFillMeals of the source, over the roster, for the displayed
month and year. -/
def autoFillMeals (students : List Student) (month year : Nat) : List Student :=
  students.map (fun s => { s with meals := autoFillStudentMeals s.meals (getDaysInMonth month year) month year })

/-- A stored monthly_sheets record as the storage collaborator returns
it: text fields may be empty (the falsy case of the source) and the
jsonb fields may be missing. -/
structure SheetRecord where
  school_name : String
  class_name : String
  teacher_name : String
  location : String
  students : Option (List Student)
  standard_meals : Option StandardMeals
deriving DecidableEq

/-- One forEach step of syncFromPreviousMonth: a prior student either
updates the name at the first index sharing its id, or is appended with
empty meals when no current student shares its id. -/
def syncStep (current : List Student) (acc : List Student) (ps : Student) : List Student :=
  if current.any (fun cs => cs.id == ps.id) then
    match acc.findIdx? (fun ns => ns.id == ps.id) with
    | some idx =>
      match acc[idx]? with
      | some old => acc.set idx { old with name := ps.name }
      | none => acc
    | none => acc
  else
    acc ++ [{ ps with meals := [] }]

/-- The roster transformation of syncFromPreviousMonth: folds the prior
roster over the current one. -/
def syncStudents (current : List Student) (prevStudents : List Student) : List Student :=
  prevStudents.foldl (syncStep current) current

/-- Outcome of the explicit sync command: either the updated roster or
the distinctly reported no-op when no prior data exists. -/
inductive SyncOutcome where
  | updated (students : List Student)
  | noPrior
deriving DecidableEq

/-- syncFromPreviousMonth of the source: the most-recent-prior lookup
either yields a record with a student list (roster updated) or the flow
is a reported no-op. -/
def syncFromPreviousMonth (current : List Student) (latest : Option SheetRecord) : SyncOutcome :=
  match latest with
  | some latestData =>
    match latestData.students with
    | some prevStudents => SyncOutcome.updated (syncStudents current prevStudents)
    | none => SyncOutcome.noPrior
  | none => SyncOutcome.noPrior

/-- The value record of calculateStudentTotals: three counts and three
signed unfulfilled deltas. -/
structure StudentTotals where
  S : Nat
  T1 : Nat
  T2 : Nat
  uS : Int
  uT1 : Int
  uT2 : Int
deriving DecidableEq

/-- calculateStudentTotals of the source: walks the stored day entries
incrementing one counter per true flag, then subtracts from the
quotas. -/
def calculateStudentTotals (standardMeals : StandardMeals) (student : Student) : StudentTotals :=
  let counts := student.meals.foldl
    (fun (acc : Nat × Nat × Nat) p =>
      (acc.1 + (if p.2.S then 1 else 0),
       acc.2.1 + (if p.2.T1 then 1 else 0),
       acc.2.2 + (if p.2.T2 then 1 else 0)))
    (0, 0, 0)
  { S := counts.1, T1 := counts.2.1, T2 := counts.2.2,
    uS := standardMeals.S - (counts.1 : Int),
    uT1 := standardMeals.T1 - (counts.2.1 : Int),
    uT2 := standardMeals.T2 - (counts.2.2 : Int) }

/-- calculateDayTotals of the source: the per-day per-meal headcount. -/
def calculateDayTotals (students : List Student) (day : Nat) (meal : MealType) : Nat :=
  students.foldl (fun acc s => acc + (if getMeal (mget s.meals day) meal then 1 else 0)) 0

/-- The JavaScript falsy-or idiom on strings: an empty string falls back
to the given default. -/
def orDefault (s d : String) : String :=
  if s = "" then d else s

/-- Default school name of the source. -/
def defaultSchoolName : String := "TRƯỜNG PTDTBT TH&THCS SUỐI LỪ"

/-- Default class name of the source. -/
def defaultClassName : String := "8C1"

/-- Default teacher name of the source. -/
def defaultTeacherName : String := "Vũ Văn Hùng"

/-- Default location of the source. -/
def defaultLocation : String := "Suối Lừ"

/-- Default quotas of the source. -/
def defaultStandardMeals : StandardMeals := ⟨14, 14, 12⟩

/-- The in-memory ledger state fetchData produces, together with the
dirty flag of the auto-save machinery. -/
structure LedgerState where
  schoolName : String
  className : String
  teacherName : String
  location : String
  standardMeals : StandardMeals
  students : List Student
  dirty : Bool
deriving DecidableEq

/-- fetchData of the source as a pure state transformer: the fetch for
the requested key either hits (fields loaded, clean), or misses and the
most recent prior record seeds the new month with cleared meals and the
dirty flag set, or nothing exists and the roster is emptied. -/
def fetchData (prev : LedgerState) (existing latest : Option SheetRecord) : LedgerState :=
  match existing with
  | some data =>
    { schoolName := orDefault data.school_name defaultSchoolName,
      className := orDefault data.class_name defaultClassName,
      teacherName := orDefault data.teacher_name defaultTeacherName,
      location := orDefault data.location defaultLocation,
      standardMeals := data.standard_meals.getD defaultStandardMeals,
      students := data.students.getD [],
      dirty := false }
  | none =>
    match latest with
    | some latestData =>
      { schoolName := orDefault latestData.school_name defaultSchoolName,
        className := orDefault latestData.class_name defaultClassName,
        teacherName := orDefault latestData.teacher_name defaultTeacherName,
        location := orDefault latestData.location defaultLocation,
        standardMeals := latestData.standard_meals.getD defaultStandardMeals,
        students := (latestData.students.getD []).map (fun s => { s with meals := [] }),
        dirty := true }
    | none => { prev with students := [], dirty := false }

/-- firstHalfDays of the source: days 1 .. 16. -/
def firstHalfDays : List Nat := List.range' 1 16

/-- secondHalfDays of the source: days 17 .. daysInMonth. -/
def secondHalfDays (daysInMonth : Nat) : List Nat := List.range' 17 (daysInMonth - 16)

/-- The last column index of an export page, as computed in createSheet:
two leading columns, three per day, six summary columns on the second
page. -/
def sheetLastCol (days : List Nat) (isSecondHalf : Bool) : Nat :=
  if isSecondHalf then 2 + days.length * 3 + 6 else 2 + days.length * 3

/-- One student data row of the export: sequence number, name, one mark
cell per day and meal, and the six totals on the second page. -/
def studentRowValues (sm : StandardMeals) (days : List Nat) (isSecondHalf : Bool) (index : Nat) (student : Student) : List String :=
  let totals := calculateStudentTotals sm student
  [toString (index + 1), student.name]
    ++ days.flatMap (fun d =>
        let e := mget student.meals d
        [if e.S then "+" else "", if e.T1 then "+" else "", if e.T2 then "+" else ""])
    ++ (if isSecondHalf then
          [toString totals.S, toString totals.T1, toString totals.T2,
           toString totals.uS, toString totals.uT1, toString totals.uT2]
        else [])

/-- The totals row of the export: the label cells, one headcount per day
and meal, and blanks under the summary columns of the second page. -/
def totalsRowValues (students : List Student) (days : List Nat) (isSecondHalf : Bool) : List String :=
  ["CỘNG", ""]
    ++ days.flatMap (fun d =>
        [toString (calculateDayTotals students d MealType.S),
         toString (calculateDayTotals students d MealType.T1),
         toString (calculateDayTotals students d MealType.T2)])
    ++ (if isSecondHalf then ["", "", "", "", "", ""] else [])

/-- Observational equality of two meal maps: every day denotes the same
entry once the all-false default fills the absent days. -/
def mealsEquiv (m₁ m₂ : MealData) : Prop :=
  ∀ d : Nat, mget m₁ d = mget m₂ d

/-- Observational equality of two students: same identity and name,
observationally equal meal maps. -/
def studentEquiv (s₁ s₂ : Student) : Prop :=
  s₁.id = s₂.id ∧ s₁.name = s₂.name ∧ mealsEquiv s₁.meals s₂.meals

/-- Observational equality of two rosters, position by position. -/
def rosterEquiv (st₁ st₂ : List Student) : Prop :=
  List.Forall₂ studentEquiv st₁ st₂

/-- Well-formedness of a meal map: day keys are pairwise distinct, as
they are for a JavaScript object. -/
abbrev keysNodup (m : MealData) : Prop :=
  (m.map (fun p => p.1)).Nodup

/-! ## Basic lemmas about the sparse day map -/

lemma lookupDay_nil (d : Nat) : lookupDay [] d = none := rfl

lemma lookupDay_cons (p : Nat × DayEntry) (rest : MealData) (d : Nat) :
    lookupDay (p :: rest) d = if p.1 = d then some p.2 else lookupDay rest d := by
  by_cases h : p.1 = d
  · have hb : (p.1 == d) = true := by simpa using h
    simp [lookupDay, List.find?, hb, h]
  · have hb : (p.1 == d) = false := by simpa using h
    simp [lookupDay, List.find?, hb, h]

lemma lookupDay_setDay (m : MealData) (d : Nat) (e : DayEntry) (d' : Nat) :
    lookupDay (setDay m d e) d' = if d' = d then some e else lookupDay m d' := by
  induction m with
  | nil =>
    simp only [setDay, lookupDay_cons, lookupDay_nil]
    by_cases h : d' = d
    · simp [h]
    · have h2 : ¬d = d' := fun hh => h hh.symm
      simp [h, h2]
  | cons p rest ih =>
    by_cases hp : p.1 = d
    · simp only [setDay, if_pos hp, lookupDay_cons]
      by_cases h : d' = d
      · simp [h]
      · have h2 : ¬d = d' := fun hh => h hh.symm
        have h3 : ¬p.1 = d' := by rw [hp]; exact h2
        simp [h, h2, h3]
    · simp only [setDay, if_neg hp, lookupDay_cons, ih]
      by_cases h : d' = d
      · have h3 : ¬p.1 = d' := by rw [h]; exact hp
        simp [h, h3]
        intro hh
        exact absurd hh hp
      · simp [h]

lemma mget_setDay (m : MealData) (d : Nat) (e : DayEntry) (d' : Nat) :
    mget (setDay m d e) d' = if d' = d then e else mget m d' := by
  simp only [mget, lookupDay_setDay]
  by_cases h : d' = d <;> simp [h]

lemma lookupDay_eraseDay (m : MealData) (d : Nat) (d' : Nat) :
    lookupDay (eraseDay m d) d' = if d' = d then none else lookupDay m d' := by
  induction m with
  | nil =>
    simp only [eraseDay, lookupDay_nil]
    split <;> rfl
  | cons p rest ih =>
    by_cases hp : p.1 = d
    · simp only [eraseDay, if_pos hp, ih]
      by_cases h : d' = d
      · simp [h]
      · have h3 : ¬p.1 = d' := by rw [hp]; exact fun hh => h hh.symm
        simp [h, lookupDay_cons, h3]
    · simp only [eraseDay, if_neg hp, lookupDay_cons, ih]
      by_cases h : d' = d
      · have h3 : ¬p.1 = d' := by rw [h]; exact hp
        simp [h, h3]
        exact hp
      · simp [h]

lemma mget_eraseDay (m : MealData) (d : Nat) (d' : Nat) :
    mget (eraseDay m d) d' = if d' = d then ⟨false, false, false⟩ else mget m d' := by
  simp only [mget, lookupDay_eraseDay]
  by_cases h : d' = d <;> simp [h]

lemma getMeal_setMeal_same (e : DayEntry) (mt : MealType) (b : Bool) :
    getMeal (setMeal e mt b) mt = b := by
  cases mt <;> rfl

lemma setMeal_getMeal_same (e : DayEntry) (mt : MealType) :
    setMeal e mt (getMeal e mt) = e := by
  cases mt <;> rfl

/-! ## C6: per-student totals -/

lemma foldl_meal_counts (m : MealData) (a b c : Nat) :
    m.foldl
      (fun (acc : Nat × Nat × Nat) p =>
        (acc.1 + (if p.2.S then 1 else 0),
         acc.2.1 + (if p.2.T1 then 1 else 0),
         acc.2.2 + (if p.2.T2 then 1 else 0)))
      (a, b, c)
    = (a + (m.filter (fun p => p.2.S)).length,
       b + (m.filter (fun p => p.2.T1)).length,
       c + (m.filter (fun p => p.2.T2)).length) := by
  induction m generalizing a b c with
  | nil => simp
  | cons p rest ih =>
    simp only [List.foldl_cons, ih, List.filter_cons]
    by_cases h1 : p.2.S = true <;> by_cases h2 : p.2.T1 = true <;> by_cases h3 : p.2.T2 = true <;>
      simp [h1, h2, h3] <;> omega

/-- C6: each meal count of calculateStudentTotals equals the number of
stored day entries whose flag is true (absent days contribute nothing),
and each unfulfilled count is the signed difference between the quota
and the count, with no clamping. -/
theorem calculateStudentTotals_spec (sm : StandardMeals) (student : Student) :
    (calculateStudentTotals sm student).S = (student.meals.filter (fun p => p.2.S)).length ∧
    (calculateStudentTotals sm student).T1 = (student.meals.filter (fun p => p.2.T1)).length ∧
    (calculateStudentTotals sm student).T2 = (student.meals.filter (fun p => p.2.T2)).length ∧
    (calculateStudentTotals sm student).uS = sm.S - ((calculateStudentTotals sm student).S : Int) ∧
    (calculateStudentTotals sm student).uT1 = sm.T1 - ((calculateStudentTotals sm student).T1 : Int) ∧
    (calculateStudentTotals sm student).uT2 = sm.T2 - ((calculateStudentTotals sm student).T2 : Int) := by
  simp only [calculateStudentTotals, foldl_meal_counts]
  simp

/-! ## C4: toggle is an involution on the mark value -/

/-- C4: toggling the same student, day and meal twice restores every
mark in the roster to its original value, and one toggle on a day that
is absent from the meal map stores the all-false entry with just the
named meal flipped. -/
theorem toggle_involution (students : List Student) (sid : String) (day : Nat) (meal : MealType) :
    ((toggleMeal (toggleMeal students sid day meal) sid day meal).map
        (fun s => getMeal (mget s.meals day) meal)
      = students.map (fun s => getMeal (mget s.meals day) meal)) ∧
    (∀ s : Student, s.id = sid → lookupDay s.meals day = none →
      lookupDay (toggleStudent sid day meal s).meals day
        = some (setMeal ⟨false, false, false⟩ meal (!(getMeal ⟨false, false, false⟩ meal)))) := by
  constructor
  · simp only [toggleMeal, List.map_map]
    apply List.map_congr_left
    intro s _
    by_cases h : s.id = sid
    · simp [toggleStudent, h, mget_setDay, getMeal_setMeal_same, Bool.not_not]
    · simp [toggleStudent, h]
  · intro s h1 h2
    simp [toggleStudent, h1, mget, h2, lookupDay_setDay]

def demoStudent : Student := ⟨"a", "Linh", [(1, ⟨true, false, false⟩)]⟩

def demoRoster : List Student := [demoStudent]

/-- Witness for C4 at a concrete roster, day and meal. -/
theorem toggle_involution_witness :
    ((toggleMeal (toggleMeal demoRoster "a" 1 MealType.S) "a" 1 MealType.S).map
        (fun s => getMeal (mget s.meals 1) MealType.S)
      = demoRoster.map (fun s => getMeal (mget s.meals 1) MealType.S)) ∧
    lookupDay (toggleStudent "a" 2 MealType.T1 demoStudent).meals 2
      = some (setMeal ⟨false, false, false⟩ MealType.T1 (!(getMeal ⟨false, false, false⟩ MealType.T1))) :=
  ⟨(toggle_involution demoRoster "a" 1 MealType.S).1,
   (toggle_involution demoRoster "a" 2 MealType.T1).2 demoStudent (by decide) (by decide)⟩

/-! ## C10: operations keyed by an absent student id are identities -/

lemma map_eq_self_of_eq {α : Type} {f : α → α} {l : List α} (h : ∀ a ∈ l, f a = a) :
    l.map f = l := by
  induction l with
  | nil => rfl
  | cons a t ih => simp [h a (by simp), ih (fun s hs => h s (by simp [hs]))]

/-- C10: when no student of the roster carries the addressed id, the
toggle, the row paste and the rename leave the roster unchanged. -/
theorem missing_id_ops_identity (students : List Student) (sid : String)
    (h : ∀ s ∈ students, s.id ≠ sid) :
    (∀ (day : Nat) (meal : MealType), toggleMeal students sid day meal = students) ∧
    (∀ clipboard : MealData, pasteMeals clipboard students sid = students) ∧
    (∀ newName : String, updateStudentName students sid newName = students) := by
  refine ⟨fun day meal => ?_, fun clipboard => ?_, fun newName => ?_⟩
  · exact map_eq_self_of_eq (fun s hs => by simp [toggleStudent, h s hs])
  · exact map_eq_self_of_eq (fun s hs => by simp [h s hs])
  · exact map_eq_self_of_eq (fun s hs => by simp [h s hs])

/-- Witness for C10 at a concrete roster and an id that is not on it. -/
theorem missing_id_ops_identity_witness :
    toggleMeal demoRoster "zz" 1 MealType.S = demoRoster ∧
    pasteMeals [] demoRoster "zz" = demoRoster ∧
    updateStudentName demoRoster "zz" "Mai" = demoRoster := by
  have h := missing_id_ops_identity demoRoster "zz" (by decide)
  exact ⟨h.1 1 MealType.S, h.2.1 [], h.2.2 "Mai"⟩

/-! ## C8: roster order and identity are preserved by bulk operations -/

lemma map_map_id_of_preserve {α β : Type} (f : α → α) (g : α → β)
    (h : ∀ a, g (f a) = g a) (l : List α) :
    (l.map f).map g = l.map g := by
  induction l with
  | nil => rfl
  | cons a t ih => simp [h, ih]

lemma pasteColumnAux_ids (clip : List Bool) (day : Nat) (meal : MealType) :
    ∀ (idx : Nat) (students : List Student),
      (pasteColumnAux clip day meal idx students).map (fun s => s.id)
        = students.map (fun s => s.id) := by
  intro idx students
  induction students generalizing idx with
  | nil => rfl
  | cons s rest ih => simp [pasteColumnAux, ih]

lemma set_name_map_ids (l : List Student) (idx : Nat) (old : Student) (n : String)
    (hold : l[idx]? = some old) :
    (l.set idx { old with name := n }).map (fun s => s.id) = l.map (fun s => s.id) := by
  induction l generalizing idx with
  | nil => simp at hold
  | cons a t ih =>
    cases idx with
    | zero =>
      simp only [List.getElem?_cons_zero, Option.some.injEq] at hold
      subst hold
      simp
    | succ k =>
      simp only [List.getElem?_cons_succ] at hold
      simp [ih k hold]

lemma syncStep_ids (current : List Student) (acc : List Student) (ps : Student) :
    ∃ ext, (syncStep current acc ps).map (fun s => s.id)
      = acc.map (fun s => s.id) ++ ext := by
  unfold syncStep
  cases hmem : current.any (fun cs => cs.id == ps.id) with
  | false => exact ⟨[ps.id], by simp⟩
  | true =>
    simp only [if_pos rfl]
    cases hidx : acc.findIdx? (fun ns => ns.id == ps.id) with
    | none => exact ⟨[], by simp⟩
    | some idx =>
      cases hold : acc[idx]? with
      | none => exact ⟨[], by simp [hold]⟩
      | some old => exact ⟨[], by simp [hold, set_name_map_ids acc idx old ps.name hold]⟩

lemma sync_fold_ids (current : List Student) (prior : List Student) :
    ∀ acc : List Student,
      ∃ ext, ((prior.foldl (syncStep current) acc).map (fun s => s.id))
        = acc.map (fun s => s.id) ++ ext := by
  induction prior with
  | nil => intro acc; exact ⟨[], by simp⟩
  | cons ps rest ih =>
    intro acc
    obtain ⟨e1, he1⟩ := syncStep_ids current acc ps
    obtain ⟨e2, he2⟩ := ih (syncStep current acc ps)
    refine ⟨e1 ++ e2, ?_⟩
    rw [List.foldl_cons, he2, he1, List.append_assoc]

/-- C8: every bulk edit operation preserves the roster order and the
identity at every position; the explicit sync only appends to the
current roster, whose positions and ids it keeps. -/
theorem roster_order_invariant :
    (∀ (students : List Student) (sid : String) (day : Nat) (meal : MealType),
      (toggleMeal students sid day meal).map (fun s => s.id) = students.map (fun s => s.id)) ∧
    (∀ (clipboard : MealData) (students : List Student) (sid : String),
      (pasteMeals clipboard students sid).map (fun s => s.id) = students.map (fun s => s.id)) ∧
    (∀ (clipboard : MealData) (students : List Student),
      (pasteToAll clipboard students).map (fun s => s.id) = students.map (fun s => s.id)) ∧
    (∀ (students : List Student) (day : Nat) (meal : MealType),
      (fillColumn students day meal).map (fun s => s.id) = students.map (fun s => s.id)) ∧
    (∀ (students : List Student) (day : Nat) (meal : MealType),
      (clearColumn students day meal).map (fun s => s.id) = students.map (fun s => s.id)) ∧
    (∀ (clip : List Bool) (students : List Student) (day : Nat) (meal : MealType),
      (pasteColumn clip students day meal).map (fun s => s.id) = students.map (fun s => s.id)) ∧
    (∀ (students : List Student) (day : Nat),
      (clearDay students day).map (fun s => s.id) = students.map (fun s => s.id)) ∧
    (∀ students : List Student,
      (clearMonth students).map (fun s => s.id) = students.map (fun s => s.id)) ∧
    (∀ (students : List Student) (month year : Nat),
      (autoFillMeals students month year).map (fun s => s.id) = students.map (fun s => s.id)) ∧
    (∀ (students : List Student) (id newName : String),
      (updateStudentName students id newName).map (fun s => s.id) = students.map (fun s => s.id)) ∧
    (∀ current prior : List Student,
      ∃ ext, (syncStudents current prior).map (fun s => s.id)
        = current.map (fun s => s.id) ++ ext) := by
  refine ⟨?_, ?_, ?_, ?_, ?_, ?_, ?_, ?_, ?_, ?_, ?_⟩
  · intro students sid day meal
    exact map_map_id_of_preserve _ _ (fun s => by by_cases h : s.id = sid <;> simp [toggleStudent, h]) students
  · intro clipboard students sid
    exact map_map_id_of_preserve _ _ (fun s => by by_cases h : s.id = sid <;> simp [h]) students
  · intro clipboard students
    exact map_map_id_of_preserve (fun s => { s with meals := clipboard }) (fun s => s.id)
      (fun s => rfl) students
  · intro students day meal
    exact map_map_id_of_preserve
      (fun s => { s with meals := setDay s.meals day (setMeal (mget s.meals day) meal true) })
      (fun s => s.id) (fun s => rfl) students
  · intro students day meal
    exact map_map_id_of_preserve
      (fun s => { s with meals := setDay s.meals day (setMeal (mget s.meals day) meal false) })
      (fun s => s.id) (fun s => rfl) students
  · intro clip students day meal
    exact pasteColumnAux_ids clip day meal 0 students
  · intro students day
    exact map_map_id_of_preserve (fun s => { s with meals := eraseDay s.meals day })
      (fun s => s.id) (fun s => rfl) students
  · intro students
    exact map_map_id_of_preserve (fun s => { s with meals := [] }) (fun s => s.id)
      (fun s => rfl) students
  · intro students month year
    exact map_map_id_of_preserve
      (fun s => { s with meals := autoFillStudentMeals s.meals (getDaysInMonth month year) month year })
      (fun s => s.id) (fun s => rfl) students
  · intro students id newName
    exact map_map_id_of_preserve _ _ (fun s => by by_cases h : s.id = id <;> simp [h]) students
  · intro current prior
    exact sync_fold_ids current prior current

/-! ## C3: autoFillMeals weekday rule -/

lemma autoFillStep_other (month year : Nat) (m : MealData) (d day : Nat) (hne : day ≠ d) :
    lookupDay (autoFillStep month year m d) day = lookupDay m day := by
  by_cases h1 : getDayOfWeek d month year = "7" ∨ getDayOfWeek d month year = "CN"
  · simp only [autoFillStep, if_pos h1]
  · by_cases h2 : getDayOfWeek d month year = "6" <;>
      simp [autoFillStep, h1, h2, lookupDay_setDay, hne]

lemma autoFillStep_weekend (month year : Nat) (m : MealData) (d : Nat)
    (h : getDayOfWeek d month year = "7" ∨ getDayOfWeek d month year = "CN") :
    autoFillStep month year m d = m := by
  simp only [autoFillStep, if_pos h]

lemma autoFill_fold_untouched (month year : Nat) (days : List Nat) (m : MealData) (day : Nat)
    (h : day ∉ days) :
    lookupDay (days.foldl (autoFillStep month year) m) day = lookupDay m day := by
  induction days generalizing m with
  | nil => rfl
  | cons d rest ih =>
    simp only [List.foldl_cons]
    rw [ih _ (fun hmem => h (List.mem_cons_of_mem _ hmem)),
      autoFillStep_other month year m d day (fun hh => h (hh ▸ List.mem_cons_self d rest))]

lemma autoFill_fold_weekend (month year : Nat) (days : List Nat) (m : MealData) (day : Nat)
    (hw : getDayOfWeek day month year = "7" ∨ getDayOfWeek day month year = "CN") :
    lookupDay (days.foldl (autoFillStep month year) m) day = lookupDay m day := by
  induction days generalizing m with
  | nil => rfl
  | cons d rest ih =>
    simp only [List.foldl_cons]
    rw [ih]
    by_cases hd : day = d
    · rw [hd] at hw ⊢
      rw [autoFillStep_weekend month year m d hw]
    · exact autoFillStep_other month year m d day hd

lemma autoFill_fold_weekday (month year : Nat) (days : List Nat) (m : MealData) (day : Nat)
    (hmem : day ∈ days)
    (hw : ¬(getDayOfWeek day month year = "7" ∨ getDayOfWeek day month year = "CN")) :
    lookupDay (days.foldl (autoFillStep month year) m) day
      = some (if getDayOfWeek day month year = "6" then ⟨true, true, false⟩
              else ⟨true, true, true⟩) := by
  induction days generalizing m with
  | nil => cases hmem
  | cons d rest ih =>
    simp only [List.foldl_cons]
    by_cases hd : day ∈ rest
    · exact ih _ hd
    · have hdd : day = d := by
        rcases List.mem_cons.mp hmem with h1 | h1
        · exact h1
        · exact absurd h1 hd
      subst hdd
      rw [autoFill_fold_untouched month year rest _ day hd]
      by_cases h6 : getDayOfWeek day month year = "6"
      · simp [autoFillStep, hw, h6, lookupDay_setDay]
      · simp [autoFillStep, hw, h6, lookupDay_setDay]

/-- C3: over days 1 .. daysInMonth, autoFillMeals leaves Saturday and
Sunday entries entirely untouched, stores S and T1 true with T2 false on
a Friday, and stores all three flags true on the other weekdays,
overwriting whatever was there before. -/
theorem autoFillMeals_weekday_rule (month year : Nat) :
    (∀ students : List Student,
      autoFillMeals students month year
        = students.map (fun s =>
            { s with meals := autoFillStudentMeals s.meals (getDaysInMonth month year) month year })) ∧
    (∀ (meals : MealData) (day : Nat), 1 ≤ day → day ≤ getDaysInMonth month year →
      ((getDayOfWeek day month year = "7" ∨ getDayOfWeek day month year = "CN") →
        lookupDay (autoFillStudentMeals meals (getDaysInMonth month year) month year) day
          = lookupDay meals day) ∧
      (getDayOfWeek day month year = "6" →
        lookupDay (autoFillStudentMeals meals (getDaysInMonth month year) month year) day
          = some ⟨true, true, false⟩) ∧
      (¬(getDayOfWeek day month year = "7" ∨ getDayOfWeek day month year = "CN"
          ∨ getDayOfWeek day month year = "6") →
        lookupDay (autoFillStudentMeals meals (getDaysInMonth month year) month year) day
          = some ⟨true, true, true⟩)) := by
  constructor
  · intro students
    rfl
  · intro meals day h1 h2
    have hmem : day ∈ List.range' 1 (getDaysInMonth month year) :=
      List.mem_range'_1.mpr ⟨h1, by omega⟩
    refine ⟨fun hw => ?_, fun h6 => ?_, fun hnw => ?_⟩
    · exact autoFill_fold_weekend month year _ meals day hw
    · have hw : ¬(getDayOfWeek day month year = "7" ∨ getDayOfWeek day month year = "CN") := by
        rw [h6]
        decide
      have hh := autoFill_fold_weekday month year _ meals day hmem hw
      rw [if_pos h6] at hh
      exact hh
    · push_neg at hnw
      have hh := autoFill_fold_weekday month year _ meals day hmem (by
        intro hcon
        rcases hcon with h | h
        · exact hnw.1 h
        · exact hnw.2.1 h)
      rw [if_neg hnw.2.2] at hh
      exact hh

/-- Witness for C3 in May 2023: day 5 is a Friday, day 6 a Saturday,
day 7 a Sunday, day 8 a Monday. -/
theorem autoFillMeals_weekday_rule_witness :
    lookupDay (autoFillStudentMeals [] (getDaysInMonth 4 2023) 4 2023) 6 = none ∧
    lookupDay (autoFillStudentMeals [] (getDaysInMonth 4 2023) 4 2023) 7 = none ∧
    lookupDay (autoFillStudentMeals [] (getDaysInMonth 4 2023) 4 2023) 5
      = some ⟨true, true, false⟩ ∧
    lookupDay (autoFillStudentMeals [] (getDaysInMonth 4 2023) 4 2023) 8
      = some ⟨true, true, true⟩ := by
  have h := (autoFillMeals_weekday_rule 4 2023).2
  refine ⟨?_, ?_, ?_, ?_⟩
  · exact (h [] 6 (by decide) (by decide)).1 (by decide)
  · exact (h [] 7 (by decide) (by decide)).1 (by decide)
  · exact (h [] 5 (by decide) (by decide)).2.1 (by decide)
  · exact (h [] 8 (by decide) (by decide)).2.2 (by decide)

/-! ## C5: sparse and dense day maps are observationally equal -/

lemma mealsEquiv_refl (m : MealData) : mealsEquiv m m := fun _ => rfl

lemma mealsEquiv_setDay {m₁ m₂ : MealData} (h : mealsEquiv m₁ m₂) (d : Nat)
    {e₁ e₂ : DayEntry} (he : e₁ = e₂) :
    mealsEquiv (setDay m₁ d e₁) (setDay m₂ d e₂) := by
  subst he
  intro d'
  by_cases hdd : d' = d <;> simp [mget_setDay, hdd, h d']

lemma mealsEquiv_eraseDay {m₁ m₂ : MealData} (h : mealsEquiv m₁ m₂) (d : Nat) :
    mealsEquiv (eraseDay m₁ d) (eraseDay m₂ d) := by
  intro d'
  by_cases hdd : d' = d <;> simp [mget_eraseDay, hdd, h d']

lemma rosterEquiv_map (f g : Student → Student)
    (hfg : ∀ s₁ s₂, studentEquiv s₁ s₂ → studentEquiv (f s₁) (g s₂)) :
    ∀ {st₁ st₂ : List Student}, rosterEquiv st₁ st₂ → rosterEquiv (st₁.map f) (st₂.map g) := by
  intro st₁ st₂ h
  induction h with
  | nil => exact List.Forall₂.nil
  | cons hab hrest ih => exact List.Forall₂.cons (hfg _ _ hab) ih

lemma toggleStudent_equiv (sid : String) (day : Nat) (meal : MealType) (s₁ s₂ : Student)
    (h : studentEquiv s₁ s₂) :
    studentEquiv (toggleStudent sid day meal s₁) (toggleStudent sid day meal s₂) := by
  obtain ⟨hid, hname, hm⟩ := h
  by_cases hs : s₁.id = sid
  · have hs₂ : s₂.id = sid := hid ▸ hs
    refine ⟨by simp [toggleStudent, hs, hs₂, hid], by simp [toggleStudent, hs, hs₂, hname], ?_⟩
    simp only [toggleStudent, hs, hs₂, ne_eq, not_true_eq_false, if_false]
    exact mealsEquiv_setDay hm day (by rw [hm day])
  · have hs₂ : ¬s₂.id = sid := by rw [← hid]; exact hs
    simpa [toggleStudent, hs, hs₂] using And.intro hid (And.intro hname hm)

lemma writeCell_equiv (day : Nat) (meal : MealType) (v : DayEntry → Bool) (s₁ s₂ : Student)
    (h : studentEquiv s₁ s₂) :
    studentEquiv
      { s₁ with meals := setDay s₁.meals day (setMeal (mget s₁.meals day) meal (v (mget s₁.meals day))) }
      { s₂ with meals := setDay s₂.meals day (setMeal (mget s₂.meals day) meal (v (mget s₂.meals day))) } := by
  obtain ⟨hid, hname, hm⟩ := h
  exact ⟨hid, hname, mealsEquiv_setDay hm day (by rw [hm day])⟩

lemma pasteColumnAux_equiv (clip : List Bool) (day : Nat) (meal : MealType) :
    ∀ {st₁ st₂ : List Student}, rosterEquiv st₁ st₂ → ∀ idx : Nat,
      rosterEquiv (pasteColumnAux clip day meal idx st₁) (pasteColumnAux clip day meal idx st₂) := by
  intro st₁ st₂ h
  induction h with
  | nil => intro idx; exact List.Forall₂.nil
  | cons hab hrest ih =>
    intro idx
    exact List.Forall₂.cons (writeCell_equiv day meal (fun _ => clip.getD idx false) _ _ hab) (ih (idx + 1))

lemma autoFill_fold_equiv (month year : Nat) (days : List Nat) :
    ∀ {m₁ m₂ : MealData}, mealsEquiv m₁ m₂ →
      mealsEquiv (days.foldl (autoFillStep month year) m₁) (days.foldl (autoFillStep month year) m₂) := by
  induction days with
  | nil => intro m₁ m₂ h; exact h
  | cons d rest ih =>
    intro m₁ m₂ h
    simp only [List.foldl_cons]
    apply ih
    by_cases h1 : getDayOfWeek d month year = "7" ∨ getDayOfWeek d month year = "CN"
    · simpa [autoFillStep, h1] using h
    · by_cases h2 : getDayOfWeek d month year = "6" <;>
        · simp only [autoFillStep, if_neg h1, h2, if_pos, if_neg, ite_true, ite_false]
          exact mealsEquiv_setDay h d rfl

/-- Spec-side counting helper: the number of stored day entries whose
selected flag is true. -/
def countFlag (f : DayEntry → Bool) (m : MealData) : Nat :=
  (m.filter (fun p => f p.2)).length

lemma lookupDay_eq_some_of_mem {m : MealData} (hm : keysNodup m) {d : Nat} {e : DayEntry}
    (hmem : (d, e) ∈ m) : lookupDay m d = some e := by
  induction m with
  | nil => cases hmem
  | cons p rest ih =>
    have hnd := List.nodup_cons.mp hm
    rcases List.mem_cons.mp hmem with h1 | h1
    · rw [← h1, lookupDay_cons]
      simp
    · have hp : ¬p.1 = d := by
        intro hc
        apply hnd.1
        show p.1 ∈ List.map (fun p => p.1) rest
        rw [hc]
        exact List.mem_map.mpr ⟨(d, e), h1, rfl⟩
      rw [lookupDay_cons, if_neg hp]
      exact ih hnd.2 h1

lemma mem_of_lookupDay_eq_some {m : MealData} {d : Nat} {e : DayEntry}
    (h : lookupDay m d = some e) : (d, e) ∈ m := by
  simp only [lookupDay, Option.map_eq_some'] at h
  obtain ⟨p, hp, he⟩ := h
  have hmem := List.mem_of_find?_eq_some hp
  have hd : p.1 = d := by simpa using List.find?_some hp
  have hpe : p = (d, e) := Prod.ext hd he
  rw [← hpe]
  exact hmem

lemma mem_filter_keys_iff {m : MealData} (hm : keysNodup m) (f : DayEntry → Bool)
    (hf : f ⟨false, false, false⟩ = false) (d : Nat) :
    d ∈ (m.filter (fun p => f p.2)).map (fun p => p.1) ↔ f (mget m d) = true := by
  constructor
  · intro hd
    obtain ⟨p, hpmem, hpd⟩ := List.mem_map.mp hd
    have hpf := List.mem_filter.mp hpmem
    have hl : lookupDay m p.1 = some p.2 :=
      lookupDay_eq_some_of_mem hm (by rw [show ((p.1, p.2) : Nat × DayEntry) = p from rfl]; exact hpf.1)
    rw [← hpd, mget, hl]
    exact hpf.2
  · intro hd
    cases hl : lookupDay m d with
    | none =>
      rw [mget, hl] at hd
      simp only [Option.getD_none] at hd
      rw [hd] at hf
      cases hf
    | some e =>
      have hmem := mem_of_lookupDay_eq_some hl
      refine List.mem_map.mpr ⟨(d, e), List.mem_filter.mpr ⟨hmem, ?_⟩, rfl⟩
      rw [mget, hl] at hd
      exact hd

lemma countFlag_congr {m₁ m₂ : MealData} (h : mealsEquiv m₁ m₂)
    (h₁ : keysNodup m₁) (h₂ : keysNodup m₂) (f : DayEntry → Bool)
    (hf : f ⟨false, false, false⟩ = false) :
    countFlag f m₁ = countFlag f m₂ := by
  have n₁ : ((m₁.filter (fun p => f p.2)).map (fun p => p.1)).Nodup :=
    List.Nodup.sublist (List.Sublist.map _ (List.filter_sublist _)) h₁
  have n₂ : ((m₂.filter (fun p => f p.2)).map (fun p => p.1)).Nodup :=
    List.Nodup.sublist (List.Sublist.map _ (List.filter_sublist _)) h₂
  have hset : ((m₁.filter (fun p => f p.2)).map (fun p => p.1)).toFinset
      = ((m₂.filter (fun p => f p.2)).map (fun p => p.1)).toFinset := by
    apply Finset.ext
    intro d
    rw [List.mem_toFinset, List.mem_toFinset, mem_filter_keys_iff h₁ f hf d,
      mem_filter_keys_iff h₂ f hf d, h d]
  have hlen : ((m₁.filter (fun p => f p.2)).map (fun p => p.1)).length
      = ((m₂.filter (fun p => f p.2)).map (fun p => p.1)).length := by
    rw [← List.toFinset_card_of_nodup n₁, ← List.toFinset_card_of_nodup n₂, hset]
  simpa [countFlag] using hlen

lemma calculateStudentTotals_equiv (sm : StandardMeals) {s₁ s₂ : Student}
    (h : studentEquiv s₁ s₂) (h₁ : keysNodup s₁.meals) (h₂ : keysNodup s₂.meals) :
    calculateStudentTotals sm s₁ = calculateStudentTotals sm s₂ := by
  have hS : (s₁.meals.filter (fun p => p.2.S)).length
      = (s₂.meals.filter (fun p => p.2.S)).length :=
    countFlag_congr h.2.2 h₁ h₂ (fun e => e.S) rfl
  have hT1 : (s₁.meals.filter (fun p => p.2.T1)).length
      = (s₂.meals.filter (fun p => p.2.T1)).length :=
    countFlag_congr h.2.2 h₁ h₂ (fun e => e.T1) rfl
  have hT2 : (s₁.meals.filter (fun p => p.2.T2)).length
      = (s₂.meals.filter (fun p => p.2.T2)).length :=
    countFlag_congr h.2.2 h₁ h₂ (fun e => e.T2) rfl
  unfold calculateStudentTotals
  rw [foldl_meal_counts, foldl_meal_counts]
  simp [hS, hT1, hT2]

lemma map_totals_equiv (sm : StandardMeals) :
    ∀ {st₁ st₂ : List Student}, rosterEquiv st₁ st₂ →
      (∀ s ∈ st₁, keysNodup s.meals) → (∀ s ∈ st₂, keysNodup s.meals) →
      st₁.map (calculateStudentTotals sm) = st₂.map (calculateStudentTotals sm) := by
  intro st₁ st₂ h
  induction h with
  | nil => intro _ _; rfl
  | cons hab hrest ih =>
    intro ha hb
    simp only [List.map_cons]
    rw [calculateStudentTotals_equiv sm hab (ha _ (by simp)) (hb _ (by simp)),
      ih (fun s hs => ha s (by simp [hs])) (fun s hs => hb s (by simp [hs]))]

lemma calculateDayTotals_equiv {st₁ st₂ : List Student} (h : rosterEquiv st₁ st₂)
    (day : Nat) (meal : MealType) :
    calculateDayTotals st₁ day meal = calculateDayTotals st₂ day meal := by
  unfold calculateDayTotals
  suffices hgen : ∀ n : Nat,
      st₁.foldl (fun acc s => acc + (if getMeal (mget s.meals day) meal then 1 else 0)) n
        = st₂.foldl (fun acc s => acc + (if getMeal (mget s.meals day) meal then 1 else 0)) n from
    hgen 0
  induction h with
  | nil => intro n; rfl
  | cons hab hrest ih =>
    intro n
    simp only [List.foldl_cons]
    rw [show mget _ day = _ from hab.2.2 day]
    exact ih _

/-- C5: rosters that agree observationally (absent days read as the
all-false entry) give identical per-student totals and per-day
headcounts, and stay observationally equal after each edit operation
applied to both. -/
theorem sparse_dense_equivalence (sm : StandardMeals) (st₁ st₂ : List Student)
    (h : rosterEquiv st₁ st₂)
    (h₁ : ∀ s ∈ st₁, keysNodup s.meals) (h₂ : ∀ s ∈ st₂, keysNodup s.meals) :
    (st₁.map (calculateStudentTotals sm) = st₂.map (calculateStudentTotals sm)) ∧
    (∀ (day : Nat) (meal : MealType),
      calculateDayTotals st₁ day meal = calculateDayTotals st₂ day meal) ∧
    (∀ (sid : String) (day : Nat) (meal : MealType),
      rosterEquiv (toggleMeal st₁ sid day meal) (toggleMeal st₂ sid day meal)) ∧
    (∀ (day : Nat) (meal : MealType),
      rosterEquiv (fillColumn st₁ day meal) (fillColumn st₂ day meal)) ∧
    (∀ (day : Nat) (meal : MealType),
      rosterEquiv (clearColumn st₁ day meal) (clearColumn st₂ day meal)) ∧
    (∀ (clip : List Bool) (day : Nat) (meal : MealType),
      rosterEquiv (pasteColumn clip st₁ day meal) (pasteColumn clip st₂ day meal)) ∧
    (∀ day : Nat, rosterEquiv (clearDay st₁ day) (clearDay st₂ day)) ∧
    (∀ month year : Nat,
      rosterEquiv (autoFillMeals st₁ month year) (autoFillMeals st₂ month year)) := by
  refine ⟨map_totals_equiv sm h h₁ h₂, fun day meal => calculateDayTotals_equiv h day meal,
    ?_, ?_, ?_, ?_, ?_, ?_⟩
  · intro sid day meal
    exact rosterEquiv_map _ _ (toggleStudent_equiv sid day meal) h
  · intro day meal
    exact rosterEquiv_map _ _ (writeCell_equiv day meal (fun _ => true)) h
  · intro day meal
    exact rosterEquiv_map _ _ (writeCell_equiv day meal (fun _ => false)) h
  · intro clip day meal
    exact pasteColumnAux_equiv clip day meal h 0
  · intro day
    exact rosterEquiv_map (fun s => { s with meals := eraseDay s.meals day })
      (fun s => { s with meals := eraseDay s.meals day })
      (fun s₁ s₂ hs => ⟨hs.1, hs.2.1, mealsEquiv_eraseDay hs.2.2 day⟩) h
  · intro month year
    exact rosterEquiv_map
      (fun s => { s with meals := autoFillStudentMeals s.meals (getDaysInMonth month year) month year })
      (fun s => { s with meals := autoFillStudentMeals s.meals (getDaysInMonth month year) month year })
      (fun s₁ s₂ hs =>
        ⟨hs.1, hs.2.1, autoFill_fold_equiv month year _ hs.2.2⟩) h

lemma mealsEquiv_append_default (m : MealData) (d : Nat) (h : lookupDay m d = none) :
    mealsEquiv m (m ++ [(d, ⟨false, false, false⟩)]) := by
  intro d'
  by_cases hd : d' = d
  · subst hd
    have hf : List.find? (fun p => p.1 == d') m = none := by
      cases hfind : List.find? (fun p => p.1 == d') m with
      | none => rfl
      | some p => simp [lookupDay, hfind] at h
    simp [mget, lookupDay, List.find?_append, hf, List.find?]
  · have hone : List.find? (fun p => p.1 == d') [((d, ⟨false, false, false⟩) : Nat × DayEntry)] = none := by
      have : (d == d') = false := by
        simp
        exact fun hh => hd hh.symm
      simp [List.find?, this]
    simp [mget, lookupDay, List.find?_append, hone]

def denseStudent : Student := ⟨"a", "Linh", [(1, ⟨true, false, false⟩), (2, ⟨false, false, false⟩)]⟩

/-- Witness for C5: a sparse roster and its dense completion give the
same totals. -/
theorem sparse_dense_equivalence_witness :
    [demoStudent].map (calculateStudentTotals defaultStandardMeals)
      = [denseStudent].map (calculateStudentTotals defaultStandardMeals) := by
  have hm : mealsEquiv demoStudent.meals denseStudent.meals :=
    mealsEquiv_append_default demoStudent.meals 2 (by decide)
  have h : rosterEquiv [demoStudent] [denseStudent] :=
    List.Forall₂.cons ⟨rfl, rfl, hm⟩ List.Forall₂.nil
  exact (sparse_dense_equivalence defaultStandardMeals [demoStudent] [denseStudent] h
    (by decide) (by decide)).1

/-! ## C7: column copy and paste round-trip -/

lemma pasteColumn_roundtrip_aux (day : Nat) (meal : MealType) :
    ∀ (back front : List Student),
      rosterEquiv
        (pasteColumnAux ((front ++ back).map (fun s => getMeal (mget s.meals day) meal)) day meal
          front.length back)
        back := by
  intro back
  induction back with
  | nil => intro front; exact List.Forall₂.nil
  | cons s rest ih =>
    intro front
    have hclip : (((front ++ s :: rest).map (fun s => getMeal (mget s.meals day) meal)).getD
        front.length false) = getMeal (mget s.meals day) meal := by
      rw [List.getD_eq_getElem?_getD, List.map_append,
        List.getElem?_append_right (by simp)]
      simp
    simp only [pasteColumnAux]
    refine List.Forall₂.cons ⟨rfl, rfl, ?_⟩ ?_
    · intro d'
      rw [hclip]
      by_cases hdd : d' = day
      · subst hdd
        rw [mget_setDay]
        simp [setMeal_getMeal_same]
      · rw [mget_setDay]
        simp [hdd]
    · have hh := ih (front ++ [s])
      simpa [List.append_assoc] using hh

def plainStudent : Student := ⟨"b", "Mai", []⟩

/-- C7 counterexample: on a roster whose student has no entry for day 1,
copyColumn and then pasteColumn at (1, S) does not return the same
ledger: the paste materialises an explicit all-false entry for day 1. -/
theorem copy_paste_roundtrip_cex :
    pasteColumn (copyColumn [plainStudent] 1 MealType.S) [plainStudent] 1 MealType.S
      ≠ [plainStudent] := by
  decide

/-- C7 amended: copyColumn followed by pasteColumn at the same (day,
meal) on an unmodified roster is observationally a no-op: every student
keeps its position, id, name and every mark value; it need not be the
literal identity because absent days may become explicit all-false
entries. -/
theorem copy_paste_roundtrip (students : List Student) (day : Nat) (meal : MealType) :
    rosterEquiv (pasteColumn (copyColumn students day meal) students day meal) students := by
  have h := pasteColumn_roundtrip_aux day meal students []
  simpa [pasteColumn, copyColumn] using h

/-! ## C2: explicit sync from the previous month -/

lemma filter_id_length_le_one (l : List Student) (i : String)
    (h : (l.map (fun s => s.id)).Nodup) :
    (l.filter (fun ns => ns.id == i)).length ≤ 1 := by
  induction l with
  | nil => simp
  | cons a rest ih =>
    rw [List.map_cons] at h
    have hnd := List.nodup_cons.mp h
    by_cases ha : a.id = i
    · have hpa : (a.id == i) = true := by simpa using ha
      have hrest : rest.filter (fun ns => ns.id == i) = [] := by
        rw [List.filter_eq_nil_iff]
        intro x hx
        simp only [beq_iff_eq]
        intro hxi
        apply hnd.1
        exact List.mem_map.mpr ⟨x, hx, by rw [hxi, ha]⟩
      simp [List.filter_cons, hpa, hrest]
    · have hpa : (a.id == i) = false := by simpa using ha
      simp only [List.filter_cons, hpa, Bool.false_eq_true, if_false]
      exact ih hnd.2

lemma set_first_match (l : List Student) (i n : String)
    (hone : (l.filter (fun ns => ns.id == i)).length ≤ 1) :
    (match l.findIdx? (fun ns => ns.id == i) with
      | some idx =>
        match l[idx]? with
        | some old => l.set idx { old with name := n }
        | none => l
      | none => l)
      = l.map (fun a => if a.id = i then { a with name := n } else a) := by
  induction l with
  | nil => rfl
  | cons a rest ih =>
    by_cases ha : a.id = i
    · have hpa : (a.id == i) = true := by simpa using ha
      rw [List.findIdx?_cons, if_pos hpa]
      simp only [List.getElem?_cons_zero, List.set_cons_zero, List.map_cons, if_pos ha]
      congr 1
      have hrest : rest.filter (fun ns => ns.id == i) = [] := by
        have h1 : (1 + (rest.filter (fun ns => ns.id == i)).length) ≤ 1 := by
          have := hone
          rw [List.filter_cons] at this
          simpa [hpa, Nat.add_comm] using this
        have h0 : (rest.filter (fun ns => ns.id == i)).length = 0 := by omega
        exact List.eq_nil_of_length_eq_zero h0
      have hnomatch : ∀ x ∈ rest, ¬x.id = i := by
        intro x hx hxi
        have hmemf : x ∈ rest.filter (fun ns => ns.id == i) :=
          List.mem_filter.mpr ⟨hx, by simpa using hxi⟩
        rw [hrest] at hmemf
        cases hmemf
      exact (map_eq_self_of_eq (fun x hx => by rw [if_neg (hnomatch x hx)])).symm
    · have hpa : (a.id == i) = false := by simpa using ha
      rw [List.findIdx?_cons, if_neg (by simp [hpa]), List.findIdx?_succ]
      have hone' : (rest.filter (fun ns => ns.id == i)).length ≤ 1 := by
        have := hone
        rw [List.filter_cons] at this
        simpa [hpa] using this
      cases hfind : rest.findIdx? (fun ns => ns.id == i) with
      | none =>
        simp only [hfind, Option.map_none']
        have hnomatch : ∀ x ∈ rest, ¬x.id = i := by
          have hall := List.findIdx?_eq_none_iff.mp hfind
          intro x hx hxi
          have hb := hall x hx
          rw [hxi] at hb
          simp at hb
        rw [List.map_cons, if_neg ha,
          map_eq_self_of_eq (fun x hx => by rw [if_neg (hnomatch x hx)])]
      | some k =>
        simp only [hfind, Option.map_some']
        rw [List.getElem?_cons_succ]
        cases hold : rest[k]? with
        | none =>
          have hk := (List.findIdx?_eq_some_iff_findIdx_eq.mp hfind).1
          rw [List.getElem?_eq_getElem hk] at hold
          cases hold
        | some old =>
          show (a :: rest).set (k + 1) { old with name := n }
              = List.map (fun a => if a.id = i then { a with name := n } else a) (a :: rest)
          rw [List.set_cons_succ, List.map_cons, if_neg ha]
          congr 1
          have hih := ih hone'
          rw [hfind] at hih
          simp only [Option.map_some'] at hih
          rw [hold] at hih
          exact hih

lemma sync_foldl_spec (current : List Student) :
    ∀ (prior : List Student) (A B : List Student),
      A.map (fun s => s.id) = current.map (fun s => s.id) →
      (current.map (fun s => s.id)).Nodup →
      (prior.map (fun s => s.id)).Nodup →
      (∀ b ∈ B, current.any (fun cs => cs.id == b.id) = false) →
      prior.foldl (syncStep current) (A ++ B)
        = A.map (fun a =>
            match prior.find? (fun x => x.id == a.id) with
            | some x => { a with name := x.name }
            | none => a)
          ++ B
          ++ (prior.filter (fun x => !(current.any (fun cs => cs.id == x.id)))).map
              (fun x => { x with meals := [] }) := by
  intro prior
  induction prior with
  | nil =>
    intro A B hA hc hp hB
    simp
  | cons ps rest ih =>
    intro A B hA hc hp hB
    rw [List.map_cons] at hp
    have hpnd := List.nodup_cons.mp hp
    rw [List.foldl_cons]
    by_cases hmem : current.any (fun cs => cs.id == ps.id) = true
    · have hBno : ∀ b ∈ B, ¬(b.id = ps.id) := by
        intro b hb hb2
        have hfb := hB b hb
        rw [hb2] at hfb
        rw [hfb] at hmem
        cases hmem
      have honeA : (A.filter (fun ns => ns.id == ps.id)).length ≤ 1 := by
        apply filter_id_length_le_one
        rw [hA]
        exact hc
      have hBfil : B.filter (fun ns => ns.id == ps.id) = [] :=
        List.filter_eq_nil_iff.mpr (fun b hb => by simpa using hBno b hb)
      have hone : ((A ++ B).filter (fun ns => ns.id == ps.id)).length ≤ 1 := by
        rw [List.filter_append, hBfil, List.append_nil]
        exact honeA
      have hstep : syncStep current (A ++ B) ps
          = (A ++ B).map (fun a => if a.id = ps.id then { a with name := ps.name } else a) := by
        unfold syncStep
        rw [if_pos hmem]
        exact set_first_match (A ++ B) ps.id ps.name hone
      rw [hstep, List.map_append]
      have hBmap : B.map (fun a => if a.id = ps.id then { a with name := ps.name } else a) = B :=
        map_eq_self_of_eq (fun b hb => by rw [if_neg (hBno b hb)])
      rw [hBmap]
      have hA' : ((A.map (fun a => if a.id = ps.id then { a with name := ps.name } else a)).map
            (fun s => s.id)) = current.map (fun s => s.id) := by
        rw [← hA, List.map_map]
        apply List.map_congr_left
        intro a _
        by_cases h : a.id = ps.id <;> simp [h]
      rw [ih (A.map (fun a => if a.id = ps.id then { a with name := ps.name } else a)) B
        hA' hc hpnd.2 hB]
      have happ : (ps :: rest).filter (fun x => !(current.any (fun cs => cs.id == x.id)))
          = rest.filter (fun x => !(current.any (fun cs => cs.id == x.id))) := by
        rw [List.filter_cons]
        simp [hmem]
      have hmapA : ((A.map (fun a => if a.id = ps.id then { a with name := ps.name } else a)).map
            (fun a =>
              match rest.find? (fun x => x.id == a.id) with
              | some x => { a with name := x.name }
              | none => a))
          = A.map (fun a =>
              match (ps :: rest).find? (fun x => x.id == a.id) with
              | some x => { a with name := x.name }
              | none => a) := by
        rw [List.map_map]
        apply List.map_congr_left
        intro a _
        by_cases h : a.id = ps.id
        · have hfind : rest.find? (fun x => x.id == a.id) = none := by
            rw [List.find?_eq_none]
            intro x hx
            simp only [beq_iff_eq]
            intro hxa
            apply hpnd.1
            exact List.mem_map.mpr ⟨x, hx, by rw [hxa, h]⟩
          have hfind2 : (ps :: rest).find? (fun x => x.id == a.id) = some ps :=
            List.find?_cons_of_pos _ (by simpa using h.symm)
          simp only [h] at hfind hfind2
          simp [h, hfind, hfind2]
        · have hfind3 : (ps :: rest).find? (fun x => x.id == a.id)
              = rest.find? (fun x => x.id == a.id) :=
            List.find?_cons_of_neg _ (by simp; exact fun hh => h hh.symm)
          simp [h, hfind3]
      rw [hmapA, happ]
    · have hmem' : current.any (fun cs => cs.id == ps.id) = false := by
        cases h : current.any (fun cs => cs.id == ps.id)
        · rfl
        · exact absurd h hmem
      have hstep : syncStep current (A ++ B) ps = A ++ (B ++ [{ ps with meals := [] }]) := by
        unfold syncStep
        rw [if_neg hmem, List.append_assoc]
      rw [hstep]
      have hB' : ∀ b ∈ B ++ [{ ps with meals := [] }],
          current.any (fun cs => cs.id == b.id) = false := by
        intro b hb
        rcases List.mem_append.mp hb with h | h
        · exact hB b h
        · simp only [List.mem_singleton] at h
          rw [h]
          simpa using hmem'
      have hih := ih A (B ++ [{ ps with meals := [] }]) hA hc hpnd.2 hB'
      rw [hih]
      have happ2 : (ps :: rest).filter (fun x => !(current.any (fun cs => cs.id == x.id)))
          = ps :: rest.filter (fun x => !(current.any (fun cs => cs.id == x.id))) := by
        rw [List.filter_cons]
        simp [hmem']
      have hmapA2 : A.map (fun a =>
            match rest.find? (fun x => x.id == a.id) with
            | some x => { a with name := x.name }
            | none => a)
          = A.map (fun a =>
            match (ps :: rest).find? (fun x => x.id == a.id) with
            | some x => { a with name := x.name }
            | none => a) := by
        apply List.map_congr_left
        intro a ha'
        have haid : current.any (fun cs => cs.id == a.id) = true := by
          have hmm : a.id ∈ current.map (fun s => s.id) := by
            rw [← hA]
            exact List.mem_map.mpr ⟨a, ha', rfl⟩
          obtain ⟨cs, hcs, hcsid⟩ := List.mem_map.mp hmm
          exact List.any_eq_true.mpr ⟨cs, hcs, by simpa using hcsid⟩
        have hne : ¬(ps.id = a.id) := by
          intro hh
          rw [hh] at hmem'
          rw [hmem'] at haid
          cases haid
        have hfind4 : (ps :: rest).find? (fun x => x.id == a.id)
            = rest.find? (fun x => x.id == a.id) :=
          List.find?_cons_of_neg _ (by simpa using hne)
        simp [hfind4]
      rw [hmapA2, happ2]
      simp [List.append_assoc]

/-- C2: the explicit sync keeps every current student at its position
with its meals untouched, overwriting only the name when a prior student
shares the id; prior students with fresh ids are appended, in prior
order, with empty meals; and the flow is a distinctly reported no-op
when no prior record or student list exists. -/
theorem syncFromPreviousMonth_spec (current prior : List Student)
    (hc : (current.map (fun s => s.id)).Nodup)
    (hp : (prior.map (fun s => s.id)).Nodup) :
    (syncStudents current prior
      = current.map (fun a =>
          match prior.find? (fun x => x.id == a.id) with
          | some x => { a with name := x.name }
          | none => a)
        ++ (prior.filter (fun x => !(current.any (fun cs => cs.id == x.id)))).map
            (fun x => { x with meals := [] })) ∧
    (syncFromPreviousMonth current none = SyncOutcome.noPrior) ∧
    (∀ rec : SheetRecord, rec.students = none →
      syncFromPreviousMonth current (some rec) = SyncOutcome.noPrior) := by
  refine ⟨?_, rfl, ?_⟩
  · have h := sync_foldl_spec current prior current [] rfl hc hp (by intro b hb; cases hb)
    simpa [syncStudents] using h
  · intro rec hrec
    simp [syncFromPreviousMonth, hrec]

def demoCurrent : List Student := [⟨"a", "Linh", [(1, ⟨true, false, false⟩)]⟩]

def demoPrior : List Student :=
  [⟨"a", "Linh Nguyen", [(2, ⟨true, true, true⟩)]⟩, ⟨"b", "Mai", []⟩]

/-- Witness for C2 at the rosters of the specification example. -/
theorem syncFromPreviousMonth_spec_witness :
    syncStudents demoCurrent demoPrior
      = [⟨"a", "Linh Nguyen", [(1, ⟨true, false, false⟩)]⟩, ⟨"b", "Mai", []⟩] := by
  have h := (syncFromPreviousMonth_spec demoCurrent demoPrior (by decide) (by decide)).1
  exact h.trans (by decide)

/-! ## C1: rollover auto-seed on a fetch miss -/

def cexPrev : LedgerState := ⟨"X", "X", "X", "X", ⟨1, 1, 1⟩, [], false⟩

def cexPriorRecord : SheetRecord :=
  ⟨"", "8C1", "T", "L", some [⟨"a", "Linh", [(1, ⟨true, false, false⟩)]⟩], some ⟨14, 14, 12⟩⟩

/-- C1 counterexample: a prior record whose stored school name is the
empty string is not copied verbatim; the falsy-or fallback substitutes
the built-in default school name instead. -/
theorem rollover_copies_verbatim_cex :
    (fetchData cexPrev none (some cexPriorRecord)).schoolName ≠ cexPriorRecord.school_name := by
  decide

/-- C1 amended: on a fetch miss with a most recent prior record, each
metadata field is copied from the prior record when it is non-empty
(non-falsy) and falls back to the built-in default otherwise, the
quotas are copied when present and default otherwise, the student list
is the prior list with every id and name preserved and meals reset to
the empty map, and the ledger is marked dirty immediately. -/
theorem rollover_auto_seed (prev : LedgerState) (latest : SheetRecord) :
    (latest.school_name ≠ "" →
      (fetchData prev none (some latest)).schoolName = latest.school_name) ∧
    (latest.school_name = "" →
      (fetchData prev none (some latest)).schoolName = defaultSchoolName) ∧
    (latest.class_name ≠ "" →
      (fetchData prev none (some latest)).className = latest.class_name) ∧
    (latest.class_name = "" →
      (fetchData prev none (some latest)).className = defaultClassName) ∧
    (latest.teacher_name ≠ "" →
      (fetchData prev none (some latest)).teacherName = latest.teacher_name) ∧
    (latest.teacher_name = "" →
      (fetchData prev none (some latest)).teacherName = defaultTeacherName) ∧
    (latest.location ≠ "" →
      (fetchData prev none (some latest)).location = latest.location) ∧
    (latest.location = "" →
      (fetchData prev none (some latest)).location = defaultLocation) ∧
    (∀ q : StandardMeals, latest.standard_meals = some q →
      (fetchData prev none (some latest)).standardMeals = q) ∧
    (latest.standard_meals = none →
      (fetchData prev none (some latest)).standardMeals = defaultStandardMeals) ∧
    ((fetchData prev none (some latest)).students
      = (latest.students.getD []).map (fun s => { s with meals := [] })) ∧
    ((fetchData prev none (some latest)).students.map (fun s => s.id)
      = (latest.students.getD []).map (fun s => s.id)) ∧
    ((fetchData prev none (some latest)).students.map (fun s => s.name)
      = (latest.students.getD []).map (fun s => s.name)) ∧
    (∀ s ∈ (fetchData prev none (some latest)).students, s.meals = ([] : MealData)) ∧
    ((fetchData prev none (some latest)).dirty = true) := by
  refine ⟨fun h => by simp [fetchData, orDefault, h],
    fun h => by simp [fetchData, orDefault, h],
    fun h => by simp [fetchData, orDefault, h],
    fun h => by simp [fetchData, orDefault, h],
    fun h => by simp [fetchData, orDefault, h],
    fun h => by simp [fetchData, orDefault, h],
    fun h => by simp [fetchData, orDefault, h],
    fun h => by simp [fetchData, orDefault, h],
    fun q hq => by simp [fetchData, hq],
    fun h => by simp [fetchData, h],
    rfl, ?_, ?_, ?_, rfl⟩
  · simp [fetchData, List.map_map]
  · simp [fetchData, List.map_map]
  · intro s hs
    simp only [fetchData, List.mem_map] at hs
    obtain ⟨x, _, hx⟩ := hs
    rw [← hx]

def demoPrevState : LedgerState := ⟨"", "", "", "", ⟨0, 0, 0⟩, [], false⟩

def demoLatestRecord : SheetRecord :=
  ⟨"School A", "1B", "Teacher T", "Loc L",
   some [⟨"a", "Linh", [(3, ⟨true, true, false⟩)]⟩], some ⟨10, 11, 12⟩⟩

/-- Witness for the amended C1 at a prior record with non-empty
fields. -/
theorem rollover_auto_seed_witness :
    (fetchData demoPrevState none (some demoLatestRecord)).schoolName = "School A" ∧
    (fetchData demoPrevState none (some demoLatestRecord)).standardMeals = ⟨10, 11, 12⟩ ∧
    (fetchData demoPrevState none (some demoLatestRecord)).students = [⟨"a", "Linh", []⟩] ∧
    (fetchData demoPrevState none (some demoLatestRecord)).dirty = true := by
  obtain ⟨h1, h2, h3, h4, h5, h6, h7, h8, h9, h10, h11, h12, h13, h14, h15⟩ :=
    rollover_auto_seed demoPrevState demoLatestRecord
  exact ⟨h1 (by decide), h9 ⟨10, 11, 12⟩ rfl, h11.trans (by decide), h15⟩

/-! ## C9: export layout column counts and totals row -/

lemma flatMap_length_three {β : Type} (f : Nat → List β) (hf : ∀ d, (f d).length = 3)
    (days : List Nat) :
    (days.flatMap f).length = 3 * days.length := by
  induction days with
  | nil => rfl
  | cons x rest ih =>
    simp only [List.flatMap_cons, List.length_append, ih, hf, List.length_cons]
    omega

lemma flatMap_triple_getElem (f g h : Nat → String) :
    ∀ (days : List Nat) (i d : Nat), days[i]? = some d →
      ((days.flatMap (fun x => [f x, g x, h x]))[3 * i]? = some (f d) ∧
       (days.flatMap (fun x => [f x, g x, h x]))[3 * i + 1]? = some (g d) ∧
       (days.flatMap (fun x => [f x, g x, h x]))[3 * i + 2]? = some (h d)) := by
  intro days
  induction days with
  | nil =>
    intro i d hh
    simp at hh
  | cons x rest ih =>
    intro i d hh
    cases i with
    | zero =>
      simp only [List.getElem?_cons_zero, Option.some.injEq] at hh
      subst hh
      simp [List.flatMap_cons]
    | succ k =>
      simp only [List.getElem?_cons_succ] at hh
      have hrec := ih k d hh
      refine ⟨?_, ?_, ?_⟩
      · rw [List.flatMap_cons,
          List.getElem?_append_right (by simp only [List.length_cons, List.length_nil]; omega)]
        have he : 3 * (k + 1) - ([f x, g x, h x] : List String).length = 3 * k := by
          simp only [List.length_cons, List.length_nil]
          omega
        rw [he]
        exact hrec.1
      · rw [List.flatMap_cons,
          List.getElem?_append_right (by simp only [List.length_cons, List.length_nil]; omega)]
        have he : 3 * (k + 1) + 1 - ([f x, g x, h x] : List String).length = 3 * k + 1 := by
          simp only [List.length_cons, List.length_nil]
          omega
        rw [he]
        exact hrec.2.1
      · rw [List.flatMap_cons,
          List.getElem?_append_right (by simp only [List.length_cons, List.length_nil]; omega)]
        have he : 3 * (k + 1) + 2 - ([f x, g x, h x] : List String).length = 3 * k + 2 := by
          simp only [List.length_cons, List.length_nil]
          omega
        rw [he]
        exact hrec.2.2

/-- C9: the export grid of a 30-day month has 2 + 16 * 3 = 50 columns on
the first page and 2 + 14 * 3 + 6 = 50 on the second; every data row and
the totals row have exactly that many cells; and the totals row cell
under each (day, meal) sub-column is the per-day per-meal headcount of
the totals calculator. -/
theorem export_layout_counts :
    sheetLastCol firstHalfDays false = 50 ∧
    sheetLastCol (secondHalfDays 30) true = 50 ∧
    (∀ (students : List Student) (days : List Nat) (isSecondHalf : Bool),
      (totalsRowValues students days isSecondHalf).length = sheetLastCol days isSecondHalf) ∧
    (∀ (sm : StandardMeals) (days : List Nat) (isSecondHalf : Bool) (index : Nat)
        (student : Student),
      (studentRowValues sm days isSecondHalf index student).length
        = sheetLastCol days isSecondHalf) ∧
    (∀ (students : List Student) (days : List Nat) (isSecondHalf : Bool) (i d : Nat),
      days[i]? = some d →
        (totalsRowValues students days isSecondHalf)[2 + 3 * i]?
          = some (toString (calculateDayTotals students d MealType.S)) ∧
        (totalsRowValues students days isSecondHalf)[2 + 3 * i + 1]?
          = some (toString (calculateDayTotals students d MealType.T1)) ∧
        (totalsRowValues students days isSecondHalf)[2 + 3 * i + 2]?
          = some (toString (calculateDayTotals students d MealType.T2))) := by
  have hquot : ∀ (students : List Student) (days : List Nat),
      (days.flatMap (fun x =>
        [toString (calculateDayTotals students x MealType.S),
         toString (calculateDayTotals students x MealType.T1),
         toString (calculateDayTotals students x MealType.T2)])).length
        = 3 * days.length := fun students days =>
    flatMap_length_three
      (fun x =>
        [toString (calculateDayTotals students x MealType.S),
         toString (calculateDayTotals students x MealType.T1),
         toString (calculateDayTotals students x MealType.T2)])
      (fun _ => rfl) days
  refine ⟨by decide, by decide, ?_, ?_, ?_⟩
  · intro students days isSecondHalf
    unfold totalsRowValues sheetLastCol
    rw [List.length_append, List.length_append, hquot students days]
    cases isSecondHalf <;> simp <;> omega
  · intro sm days isSecondHalf index student
    simp only [studentRowValues, sheetLastCol]
    rw [List.length_append, List.length_append,
      flatMap_length_three
        (fun d =>
          [if (mget student.meals d).S then "+" else "",
           if (mget student.meals d).T1 then "+" else "",
           if (mget student.meals d).T2 then "+" else ""])
        (fun _ => rfl) days]
    cases isSecondHalf <;> simp <;> omega
  · intro students days isSecondHalf i d hh
    obtain ⟨hlt, _⟩ := List.getElem?_eq_some.mp hh
    have hfm := flatMap_triple_getElem
      (fun x => toString (calculateDayTotals students x MealType.S))
      (fun x => toString (calculateDayTotals students x MealType.T1))
      (fun x => toString (calculateDayTotals students x MealType.T2)) days i d hh
    have hflatlen := hquot students days
    unfold totalsRowValues
    have hlen2 : (["CỘNG", ""] : List String).length = 2 := rfl
    refine ⟨?_, ?_, ?_⟩
    · rw [List.getElem?_append_left (by rw [List.length_append, hlen2, hflatlen]; omega),
        List.getElem?_append_right (by rw [hlen2]; omega)]
      have he : 2 + 3 * i - (["CỘNG", ""] : List String).length = 3 * i := by
        rw [hlen2]
        omega
      rw [he]
      exact hfm.1
    · rw [List.getElem?_append_left (by rw [List.length_append, hlen2, hflatlen]; omega),
        List.getElem?_append_right (by rw [hlen2]; omega)]
      have he : 2 + 3 * i + 1 - (["CỘNG", ""] : List String).length = 3 * i + 1 := by
        rw [hlen2]
        omega
      rw [he]
      exact hfm.2.1
    · rw [List.getElem?_append_left (by rw [List.length_append, hlen2, hflatlen]; omega),
        List.getElem?_append_right (by rw [hlen2]; omega)]
      have he : 2 + 3 * i + 2 - (["CỘNG", ""] : List String).length = 3 * i + 2 := by
        rw [hlen2]
        omega
      rw [he]
      exact hfm.2.2

/-- Witness for C9 at a concrete roster and day list. -/
theorem export_layout_counts_witness :
    (totalsRowValues demoRoster [3, 4] false)[2 + 3 * 1]?
      = some (toString (calculateDayTotals demoRoster 4 MealType.S)) :=
  (export_layout_counts.2.2.2.2 demoRoster [3, 4] false 1 4 (by decide)).1
